import Mathlib

set_option linter.unusedVariables false

/-!
Verification development for the fizzle telemetry collector.

The definitions below are a shallow embedding of the Rust sources:

  * `Fizzle.SmartPlugs`  embeds `fizzle/src/smartplugs/smartplug.rs`
    (the per-device correlation buffer, the energy-counter normalizer and
    the timestamp reconciliation in `generate_telemetry`).
  * `Fizzle.Impulse`     embeds `fizzle/src/impulse.rs` together with the
    impulse branch of `fizzle/src/main.rs`.
  * `Fizzle.Devices`     embeds `TasmotaDevice::update_energy_offset` and
    `TasmotaDevice::clear_stale_buffered_telemetry` from
    `fizzle/src/devices.rs`.
  * `Fizzle.Influx`      embeds the buffered batch writer loop of
    `influxdb/src/write/buffered.rs` as a step relation driven by events.
  * `Fizzle.Topic`       embeds `HomeTasmotaTopicScheme::extract_device_name`
    from `fizzle/src/smartplugs/topic.rs` and the name-resolution prelude of
    `SmartPlugSwarm::handle_telemetry` from `fizzle/src/smartplugs/mod.rs`.

Modelling conventions: Rust `f32` counter values are modelled as `Int`
(the claims under study concern control flow, comparisons and exact
subtraction at small integral values, all of which are exact in `f32`);
`OffsetDateTime` keys and millisecond timestamps are modelled as `Int`;
`usize` arithmetic that can wrap is modelled explicitly modulo `2 ^ 64`;
`BTreeMap` is modelled as a key-sorted association list. Fields of the
telemetry payloads that no claim mentions (voltage, wifi diagnostics,
uptime strings, and so on) are carried by none of the claims and are
elided from the payload records; the fields that the claims do mention
are translated field by field.
-/

namespace Fizzle

namespace SmartPlugs

/-- Sensor fragment: `tasmota::sns::StatusSNS` restricted to the fields the
claims mention, namely `Time` (as a millisecond instant, the BTreeMap key
produced by `assume_utc`) and `ENERGY.Total` (`energy_lifetime`). -/
structure StatusSNS where
  time : Int
  energyLifetime : Int
deriving DecidableEq

/-- Status fragment: `tasmota::StatusSTS` restricted to its `Time` field. -/
structure StatusSTS where
  time : Int
deriving DecidableEq

/-- One slot pair of the correlation buffer: the value type of
`raw_telemetry : BTreeMap<OffsetDateTime, (Option<StatusSNS>, Option<StatusSTS>)>`. -/
structure Entry where
  sns : Option StatusSNS
  sts : Option StatusSTS
deriving DecidableEq

/-- Whether both slots of a buffer entry are populated. -/
def Entry.complete (e : Entry) : Bool := e.sns.isSome && e.sts.isSome

/-- The mutable state of `SmartPlug` (smartplug.rs lines 8-19), keeping the
fields the claims are about: the correlation buffer, the last observed raw
energy value and the current energy offset. -/
structure SmartPlug where
  rawTelemetry : List (Int × Entry)
  lastEnergy : Option Int
  energyOffset : Int
deriving DecidableEq

/-- `SmartPlug::new`: empty buffer, no observed energy, offset 0. -/
def initialPlug : SmartPlug := ⟨[], none, 0⟩

/-- `BTreeMap::entry(t).or_default()` followed by a mutation of the entry:
inserts a default entry at key `t` when absent (keeping keys sorted) and
applies `f` to the entry at key `t`. -/
def entryModify : List (Int × Entry) → Int → (Entry → Entry) → List (Int × Entry)
  | [], t, f => [(t, f ⟨none, none⟩)]
  | (k, e) :: rest, t, f =>
    if t < k then (t, f ⟨none, none⟩) :: (k, e) :: rest
    else if t = k then (k, f e) :: rest
    else (k, e) :: entryModify rest t f

/-- `BTreeMap::get`. -/
def lookupEntry : List (Int × Entry) → Int → Option Entry
  | [], _ => none
  | (k, e) :: rest, t => if k = t then some e else lookupEntry rest t

/-- `BTreeMap::remove(&key)` (dropping the returned value). -/
def removeKey : List (Int × Entry) → Int → List (Int × Entry)
  | [], _ => []
  | (k, e) :: rest, t => if k = t then rest else (k, e) :: removeKey rest t

/-- `SmartPlug::append_sensor_telemetry` (smartplug.rs lines 82-111).
If the newest buffered key is newer than the fragment the fragment is
discarded; otherwise the energy offset is recomputed (note: on a decrease
the Rust code assigns `value`, the PREVIOUS raw value, to the offset), the
last observed energy is updated, and the SNS slot at the timestamp is
replaced. -/
def appendSensorTelemetry (s : SmartPlug) (telemetry : StatusSNS) : SmartPlug :=
  let timestamp := telemetry.time
  let discard :=
    match s.rawTelemetry.getLast? with
    | some last => decide (last.1 > timestamp)
    | none => false
  if discard then s
  else
    let offset :=
      match s.lastEnergy with
      | some value =>
        if telemetry.energyLifetime < value then value else s.energyOffset
      | none => telemetry.energyLifetime
    { rawTelemetry :=
        entryModify s.rawTelemetry timestamp (fun e => { e with sns := some telemetry }),
      lastEnergy := some telemetry.energyLifetime,
      energyOffset := offset }

/-- `SmartPlug::append_state_telemetry` (smartplug.rs lines 113-120): no
out-of-order check, the STS slot at the timestamp is replaced. -/
def appendStateTelemetry (s : SmartPlug) (telemetry : StatusSTS) : SmartPlug :=
  { s with
    rawTelemetry :=
      entryModify s.rawTelemetry telemetry.time (fun e => { e with sts := some telemetry }) }

/-- The search inside `SmartPlug::first_matched_telemetry`: the first
(oldest-keyed) buffer entry with both slots populated. -/
def findMatched : List (Int × Entry) → Option (Int × StatusSNS × StatusSTS)
  | [] => none
  | (k, e) :: rest =>
    match e.sns, e.sts with
    | some sns, some sts => some (k, sns, sts)
    | _, _ => findMatched rest

/-- `SmartPlug::first_matched_telemetry` (smartplug.rs lines 122-134):
pops the first complete entry, returning the matched triple and the
updated plug. -/
def firstMatchedTelemetry (s : SmartPlug) :
    Option (Int × StatusSNS × StatusSTS) × SmartPlug :=
  match findMatched s.rawTelemetry with
  | some (k, sns, sts) =>
    (some (k, sns, sts), { s with rawTelemetry := removeKey s.rawTelemetry k })
  | none => (none, s)

/-- The timestamp choice inside `SmartPlug::generate_telemetry`
(smartplug.rs lines 150-163): drift is the absolute difference of the two
millisecond timestamps; above 20000 the machine timestamp wins, otherwise
the device timestamp is used. -/
def reconcileTimestamp (deviceTimestamp machineTimestamp : Int) : Int :=
  let drift := (machineTimestamp - deviceTimestamp).natAbs
  if drift > 20000 then machineTimestamp else deviceTimestamp

/-- The fields of the produced record that the claims mention. -/
structure Telemetry where
  energy : Int
  timestamp : Int
deriving DecidableEq

/-- `SmartPlug::generate_telemetry` (smartplug.rs lines 141-179) restricted
to the energy and timestamp fields: energy is the offset-corrected lifetime
counter scaled to Watt-hours, the timestamp is reconciled between the
device-reported STS time and the `odt` argument. -/
def generateTelemetry (s : SmartPlug) (odt : Int) (sensor : StatusSNS)
    (state : StatusSTS) : Telemetry :=
  { energy := (sensor.energyLifetime - s.energyOffset) * 1000,
    timestamp := reconcileTimestamp state.time odt }

/-- One inbound fragment for a device, as dispatched by
`SmartPlugSwarm::handle_telemetry`. -/
inductive TelemetryEvent
  | sensor (sns : StatusSNS)
  | state (sts : StatusSTS)
deriving DecidableEq

/-- The buffer key a fragment is stored under (its own reported time). -/
def eventTime : TelemetryEvent → Int
  | .sensor sns => sns.time
  | .state sts => sts.time

/-- The append half of `handle_telemetry`: dispatch on the fragment kind. -/
def appendEvent (s : SmartPlug) : TelemetryEvent → SmartPlug
  | .sensor sns => appendSensorTelemetry s sns
  | .state sts => appendStateTelemetry s sts

/-- The per-message body of `SmartPlugSwarm::handle_telemetry`
(mod.rs lines 85-132): append the fragment, then pop the first matched
pair (if any) and generate a record from it. -/
def handleEvent (s : SmartPlug) (ev : TelemetryEvent) : SmartPlug × Option Telemetry :=
  let s1 := appendEvent s ev
  match firstMatchedTelemetry s1 with
  | (some (dt, sns, sts), s2) => (s2, some (generateTelemetry s2 dt sns sts))
  | (none, s2) => (s2, none)

/-- Process a whole sequence of fragments, collecting the produced records. -/
def runEvents (s : SmartPlug) : List TelemetryEvent → SmartPlug × List Telemetry
  | [] => (s, [])
  | ev :: rest =>
    let out := handleEvent s ev
    let tail := runEvents out.1 rest
    (tail.1, out.2.toList ++ tail.2)

/-- No buffer entry has both slots populated (true between messages). -/
def NoComplete (l : List (Int × Entry)) : Prop :=
  ∀ p ∈ l, Entry.complete p.2 = false

/-- The buffer keys are strictly ascending (the BTreeMap invariant). -/
def KeysAscending (l : List (Int × Entry)) : Prop :=
  l.Pairwise (fun a b => a.1 < b.1)

instance (l : List (Int × Entry)) : Decidable (NoComplete l) := by
  unfold NoComplete; infer_instance

instance (l : List (Int × Entry)) : Decidable (KeysAscending l) := by
  unfold KeysAscending; infer_instance

end SmartPlugs

namespace Impulse

/-- `ImpulseContext` (impulse.rs lines 17-22) without the wall-clock
`first_impulse` instant, which no claim mentions. -/
structure ImpulseContext where
  previousCount : Int
  offset : Int
deriving DecidableEq

/-- `ImpulseContext::with_initial_count`. -/
def withInitialCount (count : Int) : ImpulseContext := ⟨count, count⟩

/-- The impulse branch of the main select loop (main.rs lines 104-130):
lazily create the context from the first count, reset the offset to the
PREVIOUS count when the new count is lower, emit the `energy` field as
computed by `ImpulseContext::write_line_protocol_with` (impulse.rs line 43,
note the added 1), then record the new count. -/
def impulseStep (ctx : Option ImpulseContext) (impulseCount : Int) :
    ImpulseContext × Int :=
  let context := ctx.getD (withInitialCount impulseCount)
  let context :=
    if impulseCount < context.previousCount then
      { context with offset := context.previousCount }
    else context
  let energy := impulseCount - context.offset + 1
  ({ context with previousCount := impulseCount }, energy)

/-- Feed a sequence of raw impulse counts, collecting the emitted energy
fields. -/
def runImpulses : Option ImpulseContext → List Int → List Int
  | _, [] => []
  | ctx, c :: rest =>
    let out := impulseStep ctx c
    out.2 :: runImpulses (some out.1) rest

end Impulse

namespace Devices

/-- The two normalizer fields of `TasmotaDevice` (devices.rs lines 140-161). -/
structure EnergyState where
  reportedEnergyLifetime : Option Int
  energyLifetimeOffset : Int
deriving DecidableEq

/-- `TasmotaDevice::update_energy_offset` (devices.rs lines 219-232): on a
decrease the offset becomes the NEW raw value; the last reported value is
always recorded. -/
def updateEnergyOffset (st : EnergyState) (energy : Int) : EnergyState :=
  { energyLifetimeOffset :=
      match st.reportedEnergyLifetime with
      | some previousEnergyLifetime =>
        if energy < previousEnergyLifetime then energy
        else st.energyLifetimeOffset
      | none => energy,
    reportedEnergyLifetime := some energy }

/-- Feed a sequence of raw energy values through `update_energy_offset`. -/
def runEnergyUpdates (st : EnergyState) (l : List Int) : EnergyState :=
  l.foldl updateEnergyOffset st

/-- `MaybeTelemetry` (devices.rs lines 163-167) with the payloads abstracted
to their energy value and timestamp (no claim reads the other fields). -/
structure MaybeTelemetry where
  sns : Option Int
  sts : Option Int
deriving DecidableEq

/-- The two telemetry maps of `TasmotaDevice`: the partial-fragment buffer
and the promoted records (values abstracted to an integer payload). -/
structure TasmotaDeviceLite where
  telemetryBuffer : List (Int × MaybeTelemetry)
  telemetry : List (Int × Int)
deriving DecidableEq

/-- The modulus of 64-bit `usize` arithmetic. -/
def USIZE : Nat := 2 ^ 64

/-- Wrapping `usize` subtraction (release-build semantics; a debug build
panics where this wraps). -/
def usizeSub (a b : Nat) : Nat := (a + USIZE - b) % USIZE

/-- `TasmotaDevice::clear_stale_buffered_telemetry` (devices.rs lines
282-288): retain the buffer entries with timestamp at least `threshold`
(where `threshold = now - age`), then return
`self.telemetry_buffer.len() - before` - the length AFTER the retain minus
the length BEFORE it, computed in `usize`. -/
def clearStaleBufferedTelemetry (d : TasmotaDeviceLite) (threshold : Int) :
    TasmotaDeviceLite × Nat :=
  let before := d.telemetryBuffer.length
  let buffer := d.telemetryBuffer.filter (fun p => decide (p.1 ≥ threshold))
  ({ d with telemetryBuffer := buffer }, usizeSub buffer.length before)

end Devices

namespace Influx

/-- `Status` (influxdb/src/write/mod.rs lines 11-16). -/
inductive Status
  | init
  | buffered
  | accepted
deriving DecidableEq

/-- Order of the status state machine. -/
def Status.rank : Status → Nat
  | .init => 0
  | .buffered => 1
  | .accepted => 2

/-- Rank of an observed status cell; a cell that does not exist yet ranks
below every real status. -/
def statusRankOpt : Option Status → Nat
  | none => 0
  | some st => st.rank + 1

/-- One submitted record: the encoded payload abstracted to its identity,
its newline count (what the writer counts) and its byte length (what the
writer only logs). -/
structure WriteRecord where
  id : Nat
  lines : Nat
  bytes : Nat
deriving DecidableEq

/-- `Options` (buffered.rs lines 17-32). -/
structure Options where
  channelLen : Nat
  maxTimeoutSecs : Nat
  maxLines : Nat
deriving DecidableEq

/-- `Options::default`: channel length 64, timeout 60 s, 5000 lines. -/
def defaultOptions : Options := ⟨64, 60, 5000⟩

/-- The state of `buffered_write_task` plus the observable environment:
the submission channel contents, the pending `buffers` deque, the
accumulated `lines` counter, every record's status cell (keyed by record
id) and the history of sink write calls (each with its payload's record
ids in order and its outcome). -/
structure WriterState where
  nextId : Nat
  channel : List WriteRecord
  buffers : List WriteRecord
  lines : Nat
  status : List (Nat × Status)
  writes : List (List Nat × Bool)
deriving DecidableEq

/-- Initial state: nothing submitted, nothing pending. -/
def initialWriter : WriterState := ⟨0, [], [], 0, [], []⟩

/-- Observe a status cell. -/
def lookupStatus : List (Nat × Status) → Nat → Option Status
  | [], _ => none
  | (k, v) :: rest, id => if k = id then some v else lookupStatus rest id

/-- `watch::Sender::send_replace` on the cell of one record id. -/
def setStatus : List (Nat × Status) → Nat → Status → List (Nat × Status)
  | [], _, _ => []
  | (k, v) :: rest, id, newV =>
    if k = id then (k, newV) :: rest else (k, v) :: setStatus rest id newV

/-- Flip the cells of a batch of record ids. -/
def setStatuses (l : List (Nat × Status)) (ids : List Nat) (v : Status) :
    List (Nat × Status) :=
  ids.foldl (fun acc i => setStatus acc i v) l

/-- The batch-collection loop of the flush (buffered.rs lines 132-141):
pop records from the front, accumulating their line counts, until the line
total reaches `maxLines` or the deque is empty. Returns the batch in pop
order, the batch line total, and the remaining deque. -/
def popBatch (maxLines : Nat) : List WriteRecord → Nat → List WriteRecord × Nat × List WriteRecord
  | [], total => ([], total, [])
  | r :: rest, total =>
    if total + r.lines ≥ maxLines then ([r], total + r.lines, rest)
    else
      let pb := popBatch maxLines rest (total + r.lines)
      (r :: pb.1, pb.2.1, pb.2.2)

/-- The failure requeue loop (buffered.rs lines 157-159):
`for value in in_progress { buffers.push_front(value) }` - each element of
the batch is pushed onto the front in iteration order. -/
def pushFrontAll : List WriteRecord → List WriteRecord → List WriteRecord
  | [], acc => acc
  | r :: rest, acc => pushFrontAll rest (r :: acc)

/-- The flush body (buffered.rs lines 125-162): collect a batch, call the
sink (outcome `ok` supplied by the environment); on success drop the batch,
subtract its lines and flip its statuses to `accepted`; on failure push
the batch back onto the front of the deque one element at a time and leave
every status untouched. -/
def doFlush (opts : Options) (s : WriterState) (ok : Bool) : WriterState :=
  let pb := popBatch opts.maxLines s.buffers 0
  let batch := pb.1
  let totalLines := pb.2.1
  let remaining := pb.2.2
  if ok then
    { s with
      buffers := remaining,
      lines := s.lines - totalLines,
      status := setStatuses s.status (batch.map (fun r => r.id)) Status.accepted,
      writes := s.writes ++ [(batch.map (fun r => r.id), true)] }
  else
    { s with
      buffers := pushFrontAll batch remaining,
      writes := s.writes ++ [(batch.map (fun r => r.id), false)] }

/-- The events driving the loop: a producer submission
(`Client::write_with`, which creates the status cell at `init` and sends
the record), the select arm receiving one channel message (with the sink
outcome to use if the line threshold triggers a flush), and the periodic
timer tick (with the sink outcome to use if anything is pending). -/
inductive WriterEvent
  | submit (lines bytes : Nat)
  | recv (ok : Bool)
  | tick (ok : Bool)
deriving DecidableEq

/-- One iteration of the select loop of `buffered_write_task`
(buffered.rs lines 86-162). On `recv` with a pending message: count its
lines into the accumulator, flip its status to `buffered`, push it onto
the back of the deque, and flush immediately exactly when the accumulated
line count has reached `maxLines` (the only immediate-flush condition in
the code; the byte length is only logged). On `tick`: flush whatever is
pending, if anything. -/
def step (opts : Options) (s : WriterState) : WriterEvent → WriterState
  | .submit lines bytes =>
    { s with
      nextId := s.nextId + 1,
      channel := s.channel ++ [⟨s.nextId, lines, bytes⟩],
      status := s.status ++ [(s.nextId, Status.init)] }
  | .recv ok =>
    match s.channel with
    | [] => s
    | r :: rest =>
      let s1 : WriterState :=
        { s with
          channel := rest,
          lines := s.lines + r.lines,
          status := setStatus s.status r.id Status.buffered,
          buffers := s.buffers ++ [r] }
      if s1.lines ≥ opts.maxLines then doFlush opts s1 ok else s1
  | .tick ok => if s.buffers.isEmpty then s else doFlush opts s ok

/-- Run the writer from the initial state over a list of events. -/
def runWriter (opts : Options) (evs : List WriterEvent) : WriterState :=
  evs.foldl (step opts) initialWriter

/-- What an observer of record `id` sees after the first `n` events. -/
def statusAt (opts : Options) (evs : List WriterEvent) (n : Nat) (id : Nat) :
    Option Status :=
  lookupStatus (runWriter opts (evs.take n)).status id

/-- The writer invariant: every status key was allocated; records still in
the channel sit at `init`; records in the pending deque sit at `buffered`;
ids in the channel and the deque are duplicate-free. -/
structure WF (s : WriterState) : Prop where
  statusKeysLt : ∀ p ∈ s.status, p.1 < s.nextId
  channelInit : ∀ r ∈ s.channel, lookupStatus s.status r.id = some Status.init
  channelIdsLt : ∀ r ∈ s.channel, r.id < s.nextId
  channelNodup : s.channel.Pairwise (fun a b => a.id ≠ b.id)
  buffersBuffered : ∀ r ∈ s.buffers, lookupStatus s.status r.id = some Status.buffered
  buffersNodup : s.buffers.Pairwise (fun a b => a.id ≠ b.id)

end Influx

namespace Topic

/-- `str::strip_prefix` on character lists: the remainder after the
pattern, when the pattern is a prefix. -/
def dropPrefixL : List Char → List Char → Option (List Char)
  | [], s => some s
  | _ :: _, [] => none
  | p :: ps, c :: cs => if p = c then dropPrefixL ps cs else none

/-- Iterated prefix stripping; the fuel bounds the number of strips, and
one strip of a nonempty pattern removes at least one character, so fuel
equal to the input length makes this total with the same result as the
unbounded loop. -/
def trimStartAux : Nat → List Char → List Char → List Char
  | 0, _, s => s
  | fuel + 1, pat, s =>
    match dropPrefixL pat s with
    | some s2 => if pat = [] then s else trimStartAux fuel pat s2
    | none => s

/-- `str::trim_start_matches`: repeatedly remove the leading pattern. -/
def trimStartMatchesL (pat s : List Char) : List Char :=
  trimStartAux s.length pat s

/-- `str::strip_suffix` on character lists. -/
def dropSuffixL (pat s : List Char) : Option (List Char) :=
  (dropPrefixL pat.reverse s.reverse).map List.reverse

/-- Iterated suffix stripping with the same fuel argument as
`trimStartAux`. -/
def trimEndAux : Nat → List Char → List Char → List Char
  | 0, _, s => s
  | fuel + 1, pat, s =>
    match dropSuffixL pat s with
    | some s2 => if pat = [] then s else trimEndAux fuel pat s2
    | none => s

/-- `str::trim_end_matches`: repeatedly remove the trailing pattern. -/
def trimEndMatchesL (pat s : List Char) : List Char :=
  trimEndAux s.length pat s

/-- `HomeTasmotaTopicScheme::extract_device_name` (topic.rs lines 55-61):
strip a leading topic prefix and the three trailing suffixes, then return
`Some` of whatever remains - unconditionally. -/
def extractDeviceName (topic : List Char) : Option (List Char) :=
  let t1 := trimStartMatchesL ("tasmota/tele/".toList) topic
  let t2 := trimEndMatchesL ("/SENSOR".toList) t1
  let t3 := trimEndMatchesL ("/STATE".toList) t2
  let t4 := trimEndMatchesL ("/LWT".toList) t3
  some t4

/-- `BTreeMap::get` on the topic-to-name index `telemetry_map`. -/
def lookupName : List (List Char × List Char) → List Char → Option (List Char)
  | [], _ => none
  | (k, v) :: rest, topic => if k = topic then some v else lookupName rest topic

/-- The name resolution prelude of `SmartPlugSwarm::handle_telemetry`
(mod.rs lines 60-78): look the topic up in the index and fall back to
`extract_device_name`; the result decides whether the unroutable-topic
error branch is taken. -/
def resolveSmartPlugName (telemetryMap : List (List Char × List Char))
    (topic : List Char) : Option (List Char) :=
  match lookupName telemetryMap topic with
  | some name => some name
  | none => extractDeviceName topic

end Topic

end Fizzle

open Fizzle Fizzle.SmartPlugs Fizzle.Impulse Fizzle.Devices Fizzle.Influx Fizzle.Topic

/-- C1: evaluation of the counter-normalizer sites at the raw sequence
100, 150, 20. The claim says every site resets the offset to the NEW raw
value (here 20) on a decrease. `SmartPlug::append_sensor_telemetry` and
the impulse branch of main instead reset it to the PREVIOUS raw value
(here 150), so the smartplug offset ends at 150 and the impulse energy
output goes to -129; only `TasmotaDevice::update_energy_offset` ends at
offset 20 as the claim (and its own doc comment) describe. -/
theorem c1_code_eval :
    (runEvents initialPlug
      [.sensor ⟨1, 100⟩, .sensor ⟨2, 150⟩, .sensor ⟨3, 20⟩]).1.energyOffset = 150 ∧
    (runEvents initialPlug
      [.sensor ⟨1, 100⟩, .sensor ⟨2, 150⟩, .sensor ⟨3, 20⟩]).1.lastEnergy = some 20 ∧
    runImpulses none [100, 150, 20] = [1, 51, -129] ∧
    (runEnergyUpdates ⟨none, 0⟩ [100, 150, 20]).energyLifetimeOffset = 20 := by
  decide

/-- C2: evaluation of both cited normalizer outputs at the raw sequence
100, 150, 20, 70 of the claim. The smartplug records carry energies
0, 50000, -130000, -80000 (Watt-hours x 1000 of 0, 50, -130, -80), and
the impulse writer emits 1, 51, -129, -79 - neither sequence is
non-decreasing, neither matches the claimed 0, 50, 0, 50, and the impulse
output even starts at 1 rather than 0. -/
theorem c2_code_eval :
    (runEvents initialPlug
      [.sensor ⟨1, 100⟩, .state ⟨1⟩, .sensor ⟨2, 150⟩, .state ⟨2⟩,
       .sensor ⟨3, 20⟩, .state ⟨3⟩, .sensor ⟨4, 70⟩, .state ⟨4⟩]).2.map
        (fun t => t.energy) = [0, 50000, -130000, -80000] ∧
    runImpulses none [100, 150, 20, 70] = [1, 51, -129, -79] := by
  decide

/-- C3 counterexample: two one-line records with ids 0 and 1 are
submitted and buffered; a timer flush fails, a second timer flush
succeeds. The failed batch went out as 0, 1 but the next (successful)
flush carries 1, 0 - the requeue loop reversed the batch, contradicting
the claimed original submission order. -/
theorem c3_counterexample :
    (runWriter defaultOptions
      [.submit 1 10, .submit 1 10, .recv true, .recv true,
       .tick false, .tick true]).writes
    = [([0, 1], false), ([1, 0], true)] := by
  decide

/-- C4 counterexample: a single pending record of 40000 bytes (well past
the claimed roughly-30KB byte threshold) and one line does not trigger
any flush on receipt - the loop checks only the accumulated line count
against max_lines, so no write call is made and the record stays pending. -/
theorem c4_counterexample :
    (runWriter defaultOptions [.submit 1 40000, .recv true]).writes = [] ∧
    (runWriter defaultOptions [.submit 1 40000, .recv true]).buffers
      = [⟨0, 1, 40000⟩] := by
  decide

/-- C5 counterexample: the fragment sequence sensor at 1, status at 1,
sensor at 1, status at 1 produces TWO CompletedRecords with timestamp 1,
because promotion removes the buffer entry and with it the only guard
against re-delivery - contradicting at most or exactly once per
timestamp. -/
theorem c5_counterexample :
    ((runEvents initialPlug
      [.sensor ⟨1, 100⟩, .state ⟨1⟩, .sensor ⟨1, 100⟩, .state ⟨1⟩]).2.map
        (fun t => t.timestamp)) = [1, 1] := by
  decide

/-- C6 counterexample: after the pair at timestamp 2 is promoted, a
status fragment at the strictly older timestamp 1 is NOT discarded - it
enters the partial-fragment buffer (append_state_telemetry has no
out-of-order check at all, and the sensor-side check compares against the
newest BUFFERED key, which promotion just removed). -/
theorem c6_counterexample :
    lookupEntry
      (runEvents initialPlug
        [.sensor ⟨2, 100⟩, .state ⟨2⟩, .state ⟨1⟩]).1.rawTelemetry 1
    = some ⟨none, some ⟨1⟩⟩ := by
  decide

/-- C7: for every promoted record, when the absolute difference between
the machine timestamp argument and the device-reported STS timestamp is
at most 20000 ms the record carries the device timestamp, and when it
exceeds 20000 ms the record carries the machine timestamp. -/
theorem c7_reconciliation (plug : SmartPlug) (odt : Int) (sns : StatusSNS)
    (sts : StatusSTS) :
    ((odt - sts.time).natAbs ≤ 20000 →
      (generateTelemetry plug odt sns sts).timestamp = sts.time) ∧
    ((odt - sts.time).natAbs > 20000 →
      (generateTelemetry plug odt sns sts).timestamp = odt) := by
  simp only [generateTelemetry, reconcileTimestamp]
  constructor
  · intro h
    rw [if_neg (by omega)]
  · intro h
    rw [if_pos h]

/-- Witness for C7 on the two drifts of the spec example: drift 25000 ms
substitutes the arrival timestamp, drift 10000 ms keeps the device
timestamp. -/
theorem c7_reconciliation_witness :
    (generateTelemetry initialPlug 25000 ⟨0, 0⟩ ⟨0⟩).timestamp = 25000 ∧
    (generateTelemetry initialPlug 10000 ⟨0, 0⟩ ⟨0⟩).timestamp = 0 :=
  ⟨(c7_reconciliation initialPlug 25000 ⟨0, 0⟩ ⟨0⟩).2 (by decide),
   (c7_reconciliation initialPlug 10000 ⟨0, 0⟩ ⟨0⟩).1 (by decide)⟩

/-- C9: evaluation of clear_stale_buffered_telemetry on a buffer holding
one stale entry (timestamp 0, threshold 1). One entry is removed, the
promoted map is untouched - but the returned count is the usize value
length-after minus length-before, which wraps to 2 to the 64 minus 1
(and panics outright in a debug build) instead of the claimed removal
count 1. -/
theorem c9_code_eval :
    clearStaleBufferedTelemetry ⟨[(0, ⟨none, none⟩)], [(5, 7)]⟩ 1
      = (⟨[], [(5, 7)]⟩, 18446744073709551615) := by
  decide

/-- C10: extract_device_name returns Some for every topic under the home
tasmota scheme, so the name resolution in handle_telemetry always
succeeds and the unknown-topic error branch is unreachable. -/
theorem c10_no_unroutable_topic (telemetryMap : List (List Char × List Char))
    (topic : List Char) :
    extractDeviceName topic ≠ none ∧
    resolveSmartPlugName telemetryMap topic ≠ none := by
  refine ⟨by simp [extractDeviceName], ?_⟩
  unfold resolveSmartPlugName
  cases lookupName telemetryMap topic <;> simp [extractDeviceName]

namespace Fizzle.Influx

/-- The failure requeue loop prepends the batch element by element, which
amounts to prepending the reversed batch. -/
theorem pushFrontAll_eq_reverse_append (batch acc : List WriteRecord) :
    pushFrontAll batch acc = batch.reverse ++ acc := by
  induction batch generalizing acc with
  | nil => simp [pushFrontAll]
  | cons r rest ih => simp [pushFrontAll, ih]

/-- The batch-collection loop splits the pending deque into the batch and
the remainder. -/
theorem popBatch_append (m : Nat) (l : List WriteRecord) (t : Nat) :
    (popBatch m l t).1 ++ (popBatch m l t).2.2 = l := by
  induction l generalizing t with
  | nil => simp [popBatch]
  | cons r rest ih =>
    simp only [popBatch]
    split
    · simp
    · simp [ih]

/-- Every flush appends exactly one write call, carrying the batch ids in
pop order and the sink outcome. -/
theorem doFlush_writes (opts : Options) (s : WriterState) (ok : Bool) :
    (doFlush opts s ok).writes
      = s.writes
        ++ [((popBatch opts.maxLines s.buffers 0).1.map (fun r => r.id), ok)] := by
  cases ok <;> simp [doFlush]

end Fizzle.Influx

/-- C3 amended: when a flush fails, every record of the failed batch is
pushed back onto the front of the pending queue, but one element at a
time, so the batch lands there in REVERSE of its original order; every
status cell is left untouched (the records stay Buffered) and the pending
queue afterwards is a permutation of the queue before the flush (no record
is dropped), so the next successful flush carries exactly those records
first - in reversed order - ahead of anything submitted later. -/
theorem c3_amended (opts : Options) (s : WriterState) :
    (doFlush opts s false).buffers
      = (popBatch opts.maxLines s.buffers 0).1.reverse
        ++ (popBatch opts.maxLines s.buffers 0).2.2 ∧
    (doFlush opts s false).status = s.status ∧
    (doFlush opts s false).buffers.Perm s.buffers := by
  have hb : (doFlush opts s false).buffers
      = (popBatch opts.maxLines s.buffers 0).1.reverse
        ++ (popBatch opts.maxLines s.buffers 0).2.2 := by
    simp [doFlush, pushFrontAll_eq_reverse_append]
  refine ⟨hb, by simp [doFlush], ?_⟩
  rw [hb]
  have hperm :
      ((popBatch opts.maxLines s.buffers 0).1.reverse
        ++ (popBatch opts.maxLines s.buffers 0).2.2).Perm
      ((popBatch opts.maxLines s.buffers 0).1
        ++ (popBatch opts.maxLines s.buffers 0).2.2) :=
    (List.reverse_perm _).append_right _
  rw [popBatch_append] at hperm
  exact hperm

/-- C4 amended: on receipt of a record, the writer initiates a flush
(a sink write call) exactly when the accumulated newline count reaches
the line threshold; the byte size of the pending data plays no part in
the decision. -/
theorem c4_amended (opts : Options) (s : WriterState) (r : WriteRecord)
    (rest : List WriteRecord) (ok : Bool) (hch : s.channel = r :: rest) :
    (step opts s (.recv ok)).writes
      = s.writes
        ++ (if s.lines + r.lines ≥ opts.maxLines then
              [((popBatch opts.maxLines (s.buffers ++ [r]) 0).1.map
                  (fun x => x.id), ok)]
            else []) := by
  by_cases hge : s.lines + r.lines ≥ opts.maxLines
  · simp [step, hch, hge, doFlush_writes]
  · simp [step, hch, hge]

/-- Witness for C4 amended: one pending 40000-byte single-line record is
below the 5000-line threshold, so its receipt appends no write call. -/
theorem c4_amended_witness :
    (step defaultOptions (runWriter defaultOptions [.submit 1 40000])
        (.recv true)).writes
      = (runWriter defaultOptions [.submit 1 40000]).writes ++ [] :=
  (c4_amended defaultOptions (runWriter defaultOptions [.submit 1 40000])
      ⟨0, 1, 40000⟩ [] true (by decide)).trans (by decide)

namespace Fizzle.Influx

/-- Observing a cell right after its own send_replace sees the new value
(when the cell exists). -/
theorem lookupStatus_setStatus_self (l : List (Nat × Status)) (id : Nat)
    (v w : Status) (h : lookupStatus l id = some w) :
    lookupStatus (setStatus l id v) id = some v := by
  induction l with
  | nil => simp [lookupStatus] at h
  | cons p rest ih =>
    obtain ⟨k, u⟩ := p
    by_cases hk : k = id
    · subst hk
      simp [setStatus, lookupStatus]
    · simp only [lookupStatus, setStatus, if_neg hk] at h ⊢
      exact ih h

/-- send_replace on one cell leaves every other cell unchanged. -/
theorem lookupStatus_setStatus_ne (l : List (Nat × Status)) (i id : Nat)
    (v : Status) (h : i ≠ id) :
    lookupStatus (setStatus l i v) id = lookupStatus l id := by
  induction l with
  | nil => rfl
  | cons p rest ih =>
    obtain ⟨k, u⟩ := p
    by_cases hk : k = i
    · subst hk
      simp [setStatus, lookupStatus, h, ih]
    · simp [setStatus, lookupStatus, hk, ih]

/-- Setting a cell that does not exist is a no-op. -/
theorem setStatus_of_lookup_none (l : List (Nat × Status)) (i : Nat)
    (v : Status) (h : lookupStatus l i = none) :
    setStatus l i v = l := by
  induction l with
  | nil => rfl
  | cons p rest ih =>
    obtain ⟨k, u⟩ := p
    by_cases hk : k = i
    · subst hk
      simp [lookupStatus] at h
    · simp only [lookupStatus, if_neg hk] at h
      simp [setStatus, hk, ih h]

/-- send_replace never changes the set of cell keys. -/
theorem setStatus_fst (l : List (Nat × Status)) (i : Nat) (v : Status) :
    (setStatus l i v).map Prod.fst = l.map Prod.fst := by
  induction l with
  | nil => rfl
  | cons p rest ih =>
    obtain ⟨k, u⟩ := p
    by_cases hk : k = i <;> simp [setStatus, hk, ih]

/-- An existing cell is unaffected by appending new cells. -/
theorem lookupStatus_append_some (l l2 : List (Nat × Status)) (id : Nat)
    (w : Status) (h : lookupStatus l id = some w) :
    lookupStatus (l ++ l2) id = some w := by
  induction l with
  | nil => simp [lookupStatus] at h
  | cons p rest ih =>
    obtain ⟨k, u⟩ := p
    by_cases hk : k = id
    · subst hk
      simp_all [lookupStatus]
    · simp only [lookupStatus, if_neg hk] at h
      simpa [lookupStatus, hk] using ih h

/-- Looking up a missing cell falls through to the appended cells. -/
theorem lookupStatus_append_none (l l2 : List (Nat × Status)) (id : Nat)
    (h : lookupStatus l id = none) :
    lookupStatus (l ++ l2) id = lookupStatus l2 id := by
  induction l with
  | nil => simp
  | cons p rest ih =>
    obtain ⟨k, u⟩ := p
    by_cases hk : k = id
    · subst hk
      simp [lookupStatus] at h
    · simp only [lookupStatus, if_neg hk] at h
      simpa [lookupStatus, hk] using ih h

/-- A cell whose key is outside the key set does not exist. -/
theorem lookupStatus_eq_none (l : List (Nat × Status)) (id : Nat)
    (h : ∀ p ∈ l, p.1 ≠ id) : lookupStatus l id = none := by
  induction l with
  | nil => rfl
  | cons p rest ih =>
    obtain ⟨k, u⟩ := p
    have hk : k ≠ id := h (k, u) (by simp)
    simp only [lookupStatus, if_neg hk]
    exact ih fun q hq => h q (by simp [hq])

/-- Flipping a batch of cells either leaves a given cell alone or sets it
to the flipped value. -/
theorem lookupStatus_setStatuses_or (ids : List Nat) (l : List (Nat × Status))
    (v : Status) (id : Nat) :
    lookupStatus (setStatuses l ids v) id = lookupStatus l id ∨
    lookupStatus (setStatuses l ids v) id = some v := by
  induction ids generalizing l with
  | nil => exact Or.inl rfl
  | cons i ids ih =>
    have hfold : setStatuses l (i :: ids) v = setStatuses (setStatus l i v) ids v := by
      simp [setStatuses]
    rw [hfold]
    rcases ih (setStatus l i v) with h | h
    · rw [h]
      by_cases hii : i = id
      · subst hii
        cases hl : lookupStatus l i with
        | none => rw [setStatus_of_lookup_none l i v hl]; exact Or.inl hl
        | some w => exact Or.inr (lookupStatus_setStatus_self l i v w hl)
      · exact Or.inl (lookupStatus_setStatus_ne l i id v hii)
    · exact Or.inr h

/-- Flipping a batch of cells leaves cells outside the batch unchanged. -/
theorem lookupStatus_setStatuses_not_mem (ids : List Nat)
    (l : List (Nat × Status)) (v : Status) (id : Nat) (h : id ∉ ids) :
    lookupStatus (setStatuses l ids v) id = lookupStatus l id := by
  induction ids generalizing l with
  | nil => rfl
  | cons i ids ih =>
    have hfold : setStatuses l (i :: ids) v = setStatuses (setStatus l i v) ids v := by
      simp [setStatuses]
    rw [hfold, ih (setStatus l i v) (fun hm => h (List.mem_cons_of_mem _ hm)),
      lookupStatus_setStatus_ne l i id v (fun he => h (he ▸ List.mem_cons_self i ids))]

/-- Flipping a batch of cells never changes the set of cell keys. -/
theorem setStatuses_fst (ids : List Nat) (l : List (Nat × Status)) (v : Status) :
    (setStatuses l ids v).map Prod.fst = l.map Prod.fst := by
  induction ids generalizing l with
  | nil => rfl
  | cons i ids ih =>
    have hfold : setStatuses l (i :: ids) v = setStatuses (setStatus l i v) ids v := by
      simp [setStatuses]
    rw [hfold, ih (setStatus l i v), setStatus_fst]

/-- Every observed rank is at most the rank of an accepted cell. -/
theorem statusRankOpt_le_three (o : Option Status) : statusRankOpt o ≤ 3 := by
  cases o with
  | none => simp [statusRankOpt]
  | some st => cases st <;> simp [statusRankOpt, Status.rank]

/-- Key bounds transfer along key-set equality. -/
theorem keys_lt_of_map_eq {l l2 : List (Nat × Status)} {n : Nat}
    (hmap : l2.map Prod.fst = l.map Prod.fst) (h : ∀ p ∈ l, p.1 < n) :
    ∀ p ∈ l2, p.1 < n := by
  intro p hp
  have hmem : p.1 ∈ l2.map Prod.fst := List.mem_map_of_mem Prod.fst hp
  rw [hmap] at hmem
  obtain ⟨q, hq, hq1⟩ := List.mem_map.mp hmem
  exact hq1 ▸ h q hq

end Fizzle.Influx

namespace Fizzle.Influx

/-- A flush never touches the submission channel. -/
theorem doFlush_channel (opts : Options) (s : WriterState) (ok : Bool) :
    (doFlush opts s ok).channel = s.channel := by
  cases ok <;> simp [doFlush]

/-- A flush never touches the id allocator. -/
theorem doFlush_nextId (opts : Options) (s : WriterState) (ok : Bool) :
    (doFlush opts s ok).nextId = s.nextId := by
  cases ok <;> simp [doFlush]

/-- A failed flush leaves every status cell untouched. -/
theorem doFlush_false_status (opts : Options) (s : WriterState) :
    (doFlush opts s false).status = s.status := by
  simp [doFlush]

/-- A failed flush leaves the reversed batch at the front of the deque. -/
theorem doFlush_false_buffers (opts : Options) (s : WriterState) :
    (doFlush opts s false).buffers
      = (popBatch opts.maxLines s.buffers 0).1.reverse
        ++ (popBatch opts.maxLines s.buffers 0).2.2 := by
  simp [doFlush, pushFrontAll_eq_reverse_append]

/-- A successful flush flips exactly the cells of the flushed batch to
accepted. -/
theorem doFlush_true_status (opts : Options) (s : WriterState) :
    (doFlush opts s true).status
      = setStatuses s.status
          ((popBatch opts.maxLines s.buffers 0).1.map (fun r => r.id))
          Status.accepted := by
  simp [doFlush]

/-- A successful flush keeps only the remainder of the deque. -/
theorem doFlush_true_buffers (opts : Options) (s : WriterState) :
    (doFlush opts s true).buffers = (popBatch opts.maxLines s.buffers 0).2.2 := by
  simp [doFlush]

/-- A flush preserves the writer invariant. -/
theorem wf_doFlush (opts : Options) (s : WriterState) (ok : Bool) (h : WF s) :
    WF (doFlush opts s ok) := by
  have hsplit := popBatch_append opts.maxLines s.buffers 0
  cases ok
  · refine ⟨?_, ?_, ?_, ?_, ?_, ?_⟩
    · intro p hp
      rw [doFlush_false_status] at hp
      rw [doFlush_nextId]
      exact h.statusKeysLt p hp
    · intro r hr
      rw [doFlush_channel] at hr
      rw [doFlush_false_status]
      exact h.channelInit r hr
    · intro r hr
      rw [doFlush_channel] at hr
      rw [doFlush_nextId]
      exact h.channelIdsLt r hr
    · rw [doFlush_channel]
      exact h.channelNodup
    · intro r hr
      rw [doFlush_false_buffers] at hr
      rw [doFlush_false_status]
      refine h.buffersBuffered r ?_
      rw [← hsplit]
      rcases List.mem_append.mp hr with hr | hr
      · exact List.mem_append_left _ (List.mem_reverse.mp hr)
      · exact List.mem_append_right _ hr
    · rw [doFlush_false_buffers]
      have hperm :
          ((popBatch opts.maxLines s.buffers 0).1.reverse
            ++ (popBatch opts.maxLines s.buffers 0).2.2).Perm
          ((popBatch opts.maxLines s.buffers 0).1
            ++ (popBatch opts.maxLines s.buffers 0).2.2) :=
        (List.reverse_perm _).append_right _
      rw [hsplit] at hperm
      exact (hperm.pairwise_iff fun hab => Ne.symm hab).mpr h.buffersNodup
  · have hbatchmem : ∀ b ∈ (popBatch opts.maxLines s.buffers 0).1, b ∈ s.buffers := by
      intro b hb
      rw [← hsplit]
      exact List.mem_append_left _ hb
    have hchan_not : ∀ r ∈ s.channel,
        r.id ∉ (popBatch opts.maxLines s.buffers 0).1.map (fun x => x.id) := by
      intro r hr hmem
      obtain ⟨b, hb, hbid⟩ := List.mem_map.mp hmem
      have h1 := h.buffersBuffered b (hbatchmem b hb)
      have h2 := h.channelInit r hr
      rw [hbid, h2] at h1
      simp at h1
    have hcross : ∀ a ∈ (popBatch opts.maxLines s.buffers 0).1,
        ∀ b ∈ (popBatch opts.maxLines s.buffers 0).2.2, a.id ≠ b.id := by
      have hnd := h.buffersNodup
      rw [← hsplit] at hnd
      exact (List.pairwise_append.mp hnd).2.2
    refine ⟨?_, ?_, ?_, ?_, ?_, ?_⟩
    · intro p hp
      rw [doFlush_true_status] at hp
      rw [doFlush_nextId]
      exact keys_lt_of_map_eq (setStatuses_fst _ _ _) h.statusKeysLt p hp
    · intro r hr
      rw [doFlush_channel] at hr
      rw [doFlush_true_status,
        lookupStatus_setStatuses_not_mem _ _ _ _ (hchan_not r hr)]
      exact h.channelInit r hr
    · intro r hr
      rw [doFlush_channel] at hr
      rw [doFlush_nextId]
      exact h.channelIdsLt r hr
    · rw [doFlush_channel]
      exact h.channelNodup
    · intro r hr
      rw [doFlush_true_buffers] at hr
      have hrid : r.id ∉ (popBatch opts.maxLines s.buffers 0).1.map (fun x => x.id) := by
        intro hmem
        obtain ⟨b, hb, hbid⟩ := List.mem_map.mp hmem
        exact absurd hbid (hcross b hb r hr)
      rw [doFlush_true_status, lookupStatus_setStatuses_not_mem _ _ _ _ hrid]
      refine h.buffersBuffered r ?_
      rw [← hsplit]
      exact List.mem_append_right _ hr
    · rw [doFlush_true_buffers]
      have hnd := h.buffersNodup
      rw [← hsplit] at hnd
      exact (List.pairwise_append.mp hnd).2.1

/-- Reduction of the submit step. -/
theorem step_submit (opts : Options) (s : WriterState) (lines bytes : Nat) :
    step opts s (.submit lines bytes)
      = ⟨s.nextId + 1, s.channel ++ [⟨s.nextId, lines, bytes⟩], s.buffers,
         s.lines, s.status ++ [(s.nextId, Status.init)], s.writes⟩ := rfl

/-- Reduction of the receive step on an empty channel. -/
theorem step_recv_nil (opts : Options) (s : WriterState) (ok : Bool)
    (h : s.channel = []) : step opts s (.recv ok) = s := by
  simp [step, h]

/-- Reduction of the receive step on a pending message. -/
theorem step_recv_cons (opts : Options) (s : WriterState) (ok : Bool)
    (r : WriteRecord) (rest : List WriteRecord) (h : s.channel = r :: rest) :
    step opts s (.recv ok)
      = (if s.lines + r.lines ≥ opts.maxLines then
          doFlush opts ⟨s.nextId, rest, s.buffers ++ [r], s.lines + r.lines,
            setStatus s.status r.id Status.buffered, s.writes⟩ ok
        else ⟨s.nextId, rest, s.buffers ++ [r], s.lines + r.lines,
          setStatus s.status r.id Status.buffered, s.writes⟩) := by
  simp [step, h]

/-- Reduction of the timer step. -/
theorem step_tick (opts : Options) (s : WriterState) (ok : Bool) :
    step opts s (.tick ok)
      = if s.buffers.isEmpty then s else doFlush opts s ok := rfl

/-- Every loop iteration preserves the writer invariant. -/
theorem wf_step (opts : Options) (s : WriterState) (e : WriterEvent) (h : WF s) :
    WF (step opts s e) := by
  cases e with
  | submit lines bytes =>
    rw [step_submit]
    refine ⟨?_, ?_, ?_, ?_, ?_, ?_⟩
    · intro p hp
      rcases List.mem_append.mp hp with hp | hp
      · exact Nat.lt_succ_of_lt (h.statusKeysLt p hp)
      · simp at hp
        rw [hp]
        exact Nat.lt_succ_self _
    · intro r hr
      rcases List.mem_append.mp hr with hr | hr
      · exact lookupStatus_append_some _ _ _ _ (h.channelInit r hr)
      · simp at hr
        subst hr
        rw [lookupStatus_append_none _ _ _
          (lookupStatus_eq_none _ _ fun p hp => Nat.ne_of_lt (h.statusKeysLt p hp))]
        simp [lookupStatus]
    · intro r hr
      rcases List.mem_append.mp hr with hr | hr
      · exact Nat.lt_succ_of_lt (h.channelIdsLt r hr)
      · simp at hr
        subst hr
        exact Nat.lt_succ_self _
    · rw [List.pairwise_append]
      refine ⟨h.channelNodup, by simp, ?_⟩
      intro a ha b hb
      simp at hb
      subst hb
      exact Nat.ne_of_lt (h.channelIdsLt a ha)
    · intro r hr
      exact lookupStatus_append_some _ _ _ _ (h.buffersBuffered r hr)
    · exact h.buffersNodup
  | recv ok =>
    cases hch : s.channel with
    | nil =>
      rw [step_recv_nil opts s ok hch]
      exact h
    | cons r rest =>
      rw [step_recv_cons opts s ok r rest hch]
      have hrmem : r ∈ s.channel := by
        rw [hch]
        exact List.mem_cons_self r rest
      have hrinit : lookupStatus s.status r.id = some Status.init :=
        h.channelInit r hrmem
      have hbuf_ne : ∀ b ∈ s.buffers, b.id ≠ r.id := by
        intro b hb he
        have h1 := h.buffersBuffered b hb
        rw [he, hrinit] at h1
        simp at h1
      have hWF1 : WF ⟨s.nextId, rest, s.buffers ++ [r], s.lines + r.lines,
          setStatus s.status r.id Status.buffered, s.writes⟩ := by
        refine ⟨?_, ?_, ?_, ?_, ?_, ?_⟩
        · intro p hp
          exact keys_lt_of_map_eq (setStatus_fst _ _ _) h.statusKeysLt p hp
        · intro q hq
          have hne : r.id ≠ q.id := by
            have hnd := h.channelNodup
            rw [hch] at hnd
            exact (List.pairwise_cons.mp hnd).1 q hq
          rw [lookupStatus_setStatus_ne _ _ _ _ hne]
          refine h.channelInit q ?_
          rw [hch]
          exact List.mem_cons_of_mem r hq
        · intro q hq
          refine h.channelIdsLt q ?_
          rw [hch]
          exact List.mem_cons_of_mem r hq
        · have hnd := h.channelNodup
          rw [hch] at hnd
          exact (List.pairwise_cons.mp hnd).2
        · intro b hb
          rcases List.mem_append.mp hb with hb | hb
          · rw [lookupStatus_setStatus_ne _ _ _ _ (Ne.symm (hbuf_ne b hb))]
            exact h.buffersBuffered b hb
          · simp at hb
            subst hb
            exact lookupStatus_setStatus_self _ _ _ _ hrinit
        · rw [List.pairwise_append]
          refine ⟨h.buffersNodup, by simp, ?_⟩
          intro a ha b hb
          simp at hb
          subst hb
          exact hbuf_ne a ha
      by_cases hge : s.lines + r.lines ≥ opts.maxLines
      · rw [if_pos hge]
        exact wf_doFlush opts _ ok hWF1
      · rw [if_neg hge]
        exact hWF1
  | tick ok =>
    rw [step_tick]
    by_cases hb : s.buffers.isEmpty
    · rw [if_pos hb]
      exact h
    · rw [if_neg hb]
      exact wf_doFlush opts s ok h

/-- A flush never lowers any observed status rank. -/
theorem statusRank_doFlush_mono (opts : Options) (s : WriterState) (ok : Bool)
    (id : Nat) :
    statusRankOpt (lookupStatus s.status id) ≤
      statusRankOpt (lookupStatus (doFlush opts s ok).status id) := by
  cases ok
  · rw [doFlush_false_status]
  · rw [doFlush_true_status]
    rcases lookupStatus_setStatuses_or
        ((popBatch opts.maxLines s.buffers 0).1.map (fun r => r.id))
        s.status Status.accepted id with h | h
    · rw [h]
    · rw [h]
      simpa [statusRankOpt, Status.rank] using
        statusRankOpt_le_three (lookupStatus s.status id)

/-- No loop iteration lowers any observed status rank. -/
theorem statusRank_step_mono (opts : Options) (s : WriterState) (e : WriterEvent)
    (h : WF s) (id : Nat) :
    statusRankOpt (lookupStatus s.status id) ≤
      statusRankOpt (lookupStatus (step opts s e).status id) := by
  cases e with
  | submit lines bytes =>
    cases hl : lookupStatus s.status id with
    | some w =>
      have hr : lookupStatus (step opts s (.submit lines bytes)).status id = some w := by
        rw [step_submit]
        exact lookupStatus_append_some _ _ _ _ hl
      rw [hr]
    | none =>
      exact Nat.zero_le _
  | recv ok =>
    cases hch : s.channel with
    | nil =>
      rw [step_recv_nil opts s ok hch]
    | cons r rest =>
      rw [step_recv_cons opts s ok r rest hch]
      have hrinit : lookupStatus s.status r.id = some Status.init := by
        refine h.channelInit r ?_
        rw [hch]
        exact List.mem_cons_self r rest
      have h1 : statusRankOpt (lookupStatus s.status id)
          ≤ statusRankOpt
              (lookupStatus (setStatus s.status r.id Status.buffered) id) := by
        by_cases hid : r.id = id
        · subst hid
          rw [hrinit, lookupStatus_setStatus_self _ _ _ _ hrinit]
          simp [statusRankOpt, Status.rank]
        · rw [lookupStatus_setStatus_ne _ _ _ _ hid]
      by_cases hge : s.lines + r.lines ≥ opts.maxLines
      · rw [if_pos hge]
        exact le_trans h1
          (statusRank_doFlush_mono opts
            ⟨s.nextId, rest, s.buffers ++ [r], s.lines + r.lines,
              setStatus s.status r.id Status.buffered, s.writes⟩ ok id)
      · rw [if_neg hge]
        exact h1
  | tick ok =>
    rw [step_tick]
    by_cases hb : s.buffers.isEmpty
    · rw [if_pos hb]
    · rw [if_neg hb]
      exact statusRank_doFlush_mono opts s ok id

/-- The invariant holds of the initial writer state. -/
theorem wf_initialWriter : WF initialWriter := by
  refine ⟨?_, ?_, ?_, ?_, ?_, ?_⟩ <;> simp [initialWriter]

/-- The invariant holds along every run. -/
theorem wf_foldl (opts : Options) (evs : List WriterEvent) (s : WriterState)
    (h : WF s) : WF (evs.foldl (step opts) s) := by
  induction evs generalizing s with
  | nil => exact h
  | cons e evs ih => exact ih _ (wf_step opts s e h)

/-- The invariant holds of every reachable writer state. -/
theorem wf_runWriter (opts : Options) (evs : List WriterEvent) :
    WF (runWriter opts evs) :=
  wf_foldl opts evs initialWriter wf_initialWriter

/-- Unfolding one more processed event of a run. -/
theorem runWriter_take_succ (opts : Options) (evs : List WriterEvent) (n : Nat) :
    runWriter opts (evs.take (n + 1))
      = (match evs[n]? with
         | some e => step opts (runWriter opts (evs.take n)) e
         | none => runWriter opts (evs.take n)) := by
  rw [runWriter, List.take_succ, List.foldl_append]
  cases evs[n]? <;> simp [runWriter]

end Fizzle.Influx

/-- C8: along any run of the writer - any interleaving of submissions,
message receipts, and timer flushes with arbitrary sink outcomes - the
status cell of any record only moves forward through the order
none, Initiated, Buffered, Accepted: an observer comparing the cell after
i events with the cell after j or more events never sees it regress.
Moreover every record sitting in the pending deque (including records of
failed flush batches) shows exactly Buffered. -/
theorem c8_status_monotone (opts : Options) (evs : List WriterEvent) (id : Nat)
    (i j : Nat) (hij : i ≤ j) :
    (statusRankOpt (statusAt opts evs i id)
      ≤ statusRankOpt (statusAt opts evs j id)) ∧
    ∀ r ∈ (runWriter opts evs).buffers,
      lookupStatus (runWriter opts evs).status r.id = some Status.buffered := by
  constructor
  · have hstep : ∀ n, statusRankOpt (statusAt opts evs n id)
        ≤ statusRankOpt (statusAt opts evs (n + 1) id) := by
      intro n
      unfold statusAt
      rw [runWriter_take_succ]
      cases hg : evs[n]? with
      | none => simp [hg]
      | some e =>
        simp only [hg]
        exact statusRank_step_mono opts _ e (wf_runWriter opts _) id
    induction j, hij using Nat.le_induction with
    | base => exact le_refl _
    | succ j hij ih => exact le_trans ih (hstep j)
  · exact fun r hr => (wf_runWriter opts evs).buffersBuffered r hr

/-- Witness for C8 on a concrete trace: one record is submitted, buffered,
and survives a failed flush; its observed rank after the submission step
is at most its rank at the end, and the pending record shows Buffered. -/
theorem c8_status_monotone_witness :
    (statusRankOpt
        (statusAt defaultOptions [.submit 1 10, .recv false, .tick false] 1 0)
      ≤ statusRankOpt
        (statusAt defaultOptions [.submit 1 10, .recv false, .tick false] 3 0)) ∧
    ∀ r ∈ (runWriter defaultOptions
        [.submit 1 10, .recv false, .tick false]).buffers,
      lookupStatus (runWriter defaultOptions
        [.submit 1 10, .recv false, .tick false]).status r.id
      = some Status.buffered :=
  c8_status_monotone defaultOptions [.submit 1 10, .recv false, .tick false]
    0 1 3 (by decide)

namespace Fizzle.SmartPlugs

/-- The matched-pair search fails exactly when no buffer entry is
complete. -/
theorem findMatched_eq_none_iff (l : List (Int × Entry)) :
    findMatched l = none ↔ NoComplete l := by
  induction l with
  | nil => simp [findMatched, NoComplete]
  | cons p rest ih =>
    obtain ⟨k, e⟩ := p
    have hcons : NoComplete ((k, e) :: rest) ↔
        (Entry.complete e = false ∧ NoComplete rest) := by
      constructor
      · intro h
        exact ⟨h (k, e) (List.mem_cons_self _ _),
          fun q hq => h q (List.mem_cons_of_mem _ hq)⟩
      · intro h q hq
        rcases List.mem_cons.mp hq with rfl | hq
        · exact h.1
        · exact h.2 q hq
    rw [hcons]
    cases hsns : e.sns with
    | none =>
      have hred : findMatched ((k, e) :: rest) = findMatched rest := by
        simp [findMatched, hsns]
      rw [hred, ih]
      simp [Entry.complete, hsns]
    | some s1 =>
      cases hsts : e.sts with
      | none =>
        have hred : findMatched ((k, e) :: rest) = findMatched rest := by
          simp [findMatched, hsns, hsts]
        rw [hred, ih]
        simp [Entry.complete, hsns, hsts]
      | some s2 =>
        have hred : findMatched ((k, e) :: rest) = some (k, s1, s2) := by
          simp [findMatched, hsns, hsts]
        rw [hred]
        simp [Entry.complete, hsns, hsts]

/-- The matched pair returned by the search is a complete buffer entry. -/
theorem findMatched_mem (l : List (Int × Entry)) (k : Int) (sns : StatusSNS)
    (sts : StatusSTS) (h : findMatched l = some (k, sns, sts)) :
    (k, Entry.mk (some sns) (some sts)) ∈ l := by
  induction l with
  | nil => simp [findMatched] at h
  | cons p rest ih =>
    obtain ⟨k0, a, b⟩ := p
    cases a with
    | none =>
      simp only [findMatched] at h
      exact List.mem_cons_of_mem _ (ih h)
    | some s1 =>
      cases b with
      | none =>
        simp only [findMatched] at h
        exact List.mem_cons_of_mem _ (ih h)
      | some s2 =>
        simp only [findMatched, Option.some.injEq, Prod.mk.injEq] at h
        obtain ⟨hk, hs1, hs2⟩ := h
        subst hk
        subst hs1
        subst hs2
        exact List.mem_cons_self _ _

/-- A member of the buffer after an entry update either sits at the
updated key or was already a member. -/
theorem entryModify_mem (l : List (Int × Entry)) (t : Int) (f : Entry → Entry)
    (p : Int × Entry) (hp : p ∈ entryModify l t f) : p.1 = t ∨ p ∈ l := by
  induction l with
  | nil =>
    simp only [entryModify, List.mem_singleton] at hp
    exact Or.inl (by rw [hp])
  | cons q rest ih =>
    obtain ⟨k, e⟩ := q
    by_cases h1 : t < k
    · simp only [entryModify, if_pos h1] at hp
      rcases List.mem_cons.mp hp with rfl | hp
      · exact Or.inl rfl
      · exact Or.inr hp
    · by_cases h2 : t = k
      · simp only [entryModify, if_neg h1, if_pos h2] at hp
        rcases List.mem_cons.mp hp with rfl | hp
        · exact Or.inl h2.symm
        · exact Or.inr (List.mem_cons_of_mem _ hp)
      · simp only [entryModify, if_neg h1, if_neg h2] at hp
        rcases List.mem_cons.mp hp with rfl | hp
        · exact Or.inr (List.mem_cons_self _ _)
        · rcases ih hp with h | h
          · exact Or.inl h
          · exact Or.inr (List.mem_cons_of_mem _ h)

/-- An entry update keeps the buffer keys strictly ascending. -/
theorem entryModify_pairwise (l : List (Int × Entry)) (t : Int)
    (f : Entry → Entry) (h : KeysAscending l) :
    KeysAscending (entryModify l t f) := by
  induction l with
  | nil =>
    simp only [entryModify, KeysAscending]
    exact List.pairwise_singleton _ _
  | cons q rest ih =>
    obtain ⟨k, e⟩ := q
    have hc := List.pairwise_cons.mp h
    obtain ⟨hhead, hrest⟩ := hc
    by_cases h1 : t < k
    · simp only [entryModify, if_pos h1]
      refine List.pairwise_cons.mpr ⟨?_, List.pairwise_cons.mpr ⟨hhead, hrest⟩⟩
      intro q hq
      rcases List.mem_cons.mp hq with rfl | hq
      · exact h1
      · exact lt_trans h1 (hhead q hq)
    · by_cases h2 : t = k
      · simp only [entryModify, if_neg h1, if_pos h2]
        exact List.pairwise_cons.mpr ⟨hhead, hrest⟩
      · simp only [entryModify, if_neg h1, if_neg h2]
        refine List.pairwise_cons.mpr ⟨?_, ih hrest⟩
        intro q hq
        rcases entryModify_mem rest t f q hq with hq1 | hq1
        · rw [hq1]
          omega
        · exact hhead q hq1

/-- Removal at a key in an ascending buffer keeps membership in the
original buffer and loses the removed key entirely. -/
theorem removeKey_mem (l : List (Int × Entry)) (t : Int) (h : KeysAscending l)
    (p : Int × Entry) (hp : p ∈ removeKey l t) : p ∈ l ∧ p.1 ≠ t := by
  induction l with
  | nil => simp [removeKey] at hp
  | cons q rest ih =>
    obtain ⟨k, e⟩ := q
    have hcons := List.pairwise_cons.mp h
    by_cases hk : k = t
    · simp only [removeKey, if_pos hk] at hp
      refine ⟨List.mem_cons_of_mem _ hp, ?_⟩
      have hlt := hcons.1 p hp
      omega
    · simp only [removeKey, if_neg hk] at hp
      rcases List.mem_cons.mp hp with rfl | hp
      · exact ⟨List.mem_cons_self _ _, by simpa using hk⟩
      · obtain ⟨h1, h2⟩ := ih hcons.2 hp
        exact ⟨List.mem_cons_of_mem _ h1, h2⟩

/-- A key outside every entry of the buffer looks up to nothing. -/
theorem lookupEntry_eq_none (l : List (Int × Entry)) (t : Int)
    (h : ∀ p ∈ l, p.1 ≠ t) : lookupEntry l t = none := by
  induction l with
  | nil => rfl
  | cons q rest ih =>
    obtain ⟨k, e⟩ := q
    have hk : k ≠ t := h (k, e) (List.mem_cons_self _ _)
    simp only [lookupEntry, if_neg hk]
    exact ih fun p hp => h p (List.mem_cons_of_mem _ hp)

/-- A successful lookup is a membership. -/
theorem lookupEntry_mem (l : List (Int × Entry)) (t : Int) (e : Entry)
    (h : lookupEntry l t = some e) : (t, e) ∈ l := by
  induction l with
  | nil => simp [lookupEntry] at h
  | cons q rest ih =>
    obtain ⟨k, u⟩ := q
    by_cases hk : k = t
    · subst hk
      simp [lookupEntry] at h
      subst h
      exact List.mem_cons_self _ _
    · simp only [lookupEntry, if_neg hk] at h
      exact List.mem_cons_of_mem _ (ih h)

/-- Appending a fragment either leaves the buffer alone (the sensor-side
discard) or updates the entry at the fragment timestamp. -/
theorem appendEvent_raw (s : SmartPlug) (ev : TelemetryEvent) :
    (appendEvent s ev).rawTelemetry = s.rawTelemetry ∨
    ∃ f, (appendEvent s ev).rawTelemetry
      = entryModify s.rawTelemetry (eventTime ev) f := by
  cases ev with
  | sensor sns =>
    simp only [appendEvent, appendSensorTelemetry]
    split
    · exact Or.inl rfl
    · exact Or.inr ⟨(fun e => { e with sns := some sns }), rfl⟩
  | state sts =>
    exact Or.inr ⟨(fun e => { e with sts := some sts }), rfl⟩

/-- The sensor-side discard branch: a fragment older than the newest
buffered key changes nothing at all. -/
theorem appendSensorTelemetry_discard (s : SmartPlug) (sns : StatusSNS)
    (k : Int) (e : Entry) (hlast : s.rawTelemetry.getLast? = some (k, e))
    (hlt : sns.time < k) : appendSensorTelemetry s sns = s := by
  simp [appendSensorTelemetry, hlast, hlt]

end Fizzle.SmartPlugs

/-- C5 amended: starting from any reachable buffer (ascending keys, no
complete entry), processing one fragment produces a promoted pair exactly
when the fragment completed the entry at its own timestamp: when a pair
is popped, its key is the fragment timestamp and its entry is gone from
the buffer; when no pair is popped, the entry at the fragment timestamp
(if any) is still incomplete; and afterwards the buffer again holds no
complete entry - so a timestamp promotes at most once per delivery, but
CAN promote again if both fragment kinds arrive again after promotion. -/
theorem c5_amended (s : SmartPlug) (ev : TelemetryEvent)
    (hasc : KeysAscending s.rawTelemetry) (hnc : NoComplete s.rawTelemetry) :
    NoComplete (firstMatchedTelemetry (appendEvent s ev)).2.rawTelemetry ∧
    (∀ k sns sts,
      (firstMatchedTelemetry (appendEvent s ev)).1 = some (k, sns, sts) →
        k = eventTime ev ∧
        lookupEntry (firstMatchedTelemetry (appendEvent s ev)).2.rawTelemetry k
          = none) ∧
    ((firstMatchedTelemetry (appendEvent s ev)).1 = none →
      ∀ e, lookupEntry (appendEvent s ev).rawTelemetry (eventTime ev) = some e →
        Entry.complete e = false) := by
  rcases appendEvent_raw s ev with hraw | ⟨f, hraw⟩
  · have hfm : findMatched (appendEvent s ev).rawTelemetry = none := by
      rw [hraw]
      exact (findMatched_eq_none_iff _).mpr hnc
    have hpair : firstMatchedTelemetry (appendEvent s ev)
        = (none, appendEvent s ev) := by
      simp only [firstMatchedTelemetry, hfm]
    refine ⟨?_, ?_, ?_⟩
    · rw [hpair, hraw]
      exact hnc
    · intro k sns sts hks
      rw [hpair] at hks
      simp at hks
    · intro _ e hee
      rw [hraw] at hee
      exact hnc (eventTime ev, e) (lookupEntry_mem _ _ _ hee)
  · have hasc1 : KeysAscending (appendEvent s ev).rawTelemetry := by
      rw [hraw]
      exact entryModify_pairwise _ _ _ hasc
    cases hfm : findMatched (appendEvent s ev).rawTelemetry with
    | none =>
      have hnc1 : NoComplete (appendEvent s ev).rawTelemetry :=
        (findMatched_eq_none_iff _).mp hfm
      have hpair : firstMatchedTelemetry (appendEvent s ev)
          = (none, appendEvent s ev) := by
        simp only [firstMatchedTelemetry, hfm]
      refine ⟨?_, ?_, ?_⟩
      · rw [hpair]
        exact hnc1
      · intro k sns sts hks
        rw [hpair] at hks
        simp at hks
      · intro _ e hee
        exact hnc1 (eventTime ev, e) (lookupEntry_mem _ _ _ hee)
    | some trip =>
      obtain ⟨k, sns, sts⟩ := trip
      have hmem := findMatched_mem _ _ _ _ hfm
      have hkt : k = eventTime ev := by
        rcases entryModify_mem s.rawTelemetry (eventTime ev) f _
            (hraw ▸ hmem) with h | h
        · exact h
        · exact absurd (hnc _ h) (by simp [Entry.complete])
      have hpair : firstMatchedTelemetry (appendEvent s ev)
          = (some (k, sns, sts),
             { appendEvent s ev with
               rawTelemetry :=
                 removeKey (appendEvent s ev).rawTelemetry k }) := by
        simp only [firstMatchedTelemetry, hfm]
      refine ⟨?_, ?_, ?_⟩
      · rw [hpair]
        intro p hp
        obtain ⟨hpin, hpne⟩ := removeKey_mem _ k hasc1 p hp
        rcases entryModify_mem s.rawTelemetry (eventTime ev) f p
            (hraw ▸ hpin) with h | h
        · exact absurd (h.trans hkt.symm) hpne
        · exact hnc p h
      · intro k2 sns2 sts2 hks
        rw [hpair] at hks
        simp only [Option.some.injEq, Prod.mk.injEq] at hks
        obtain ⟨h1, _, _⟩ := hks
        subst h1
        refine ⟨hkt, ?_⟩
        rw [hpair]
        refine lookupEntry_eq_none _ _ ?_
        intro p hp
        exact (removeKey_mem _ k hasc1 p hp).2
      · intro hnone
        rw [hpair] at hnone
        simp at hnone

/-- Witness for C5 amended at the empty buffer and a sensor fragment: the
hypotheses hold of a fresh plug, and after the fragment no complete entry
is left in the buffer. -/
theorem c5_amended_witness :
    NoComplete (firstMatchedTelemetry
      (appendEvent initialPlug (TelemetryEvent.sensor ⟨1, 100⟩))).2.rawTelemetry :=
  (c5_amended initialPlug (TelemetryEvent.sensor ⟨1, 100⟩)
    (by decide) (by decide)).1

/-- C6 amended: only SENSOR fragments are subject to the out-of-order
check, and the reference point is the newest timestamp still in the
partial-fragment buffer (not the newest promoted timestamp): a sensor
fragment strictly older than the newest buffered key is discarded
entirely - the buffer, the last observed energy and the offset are all
unchanged - and (from any between-messages state) no record is produced.
Status fragments are never discarded. -/
theorem c6_amended (s : SmartPlug) (sns : StatusSNS) (k : Int) (e : Entry)
    (hlast : s.rawTelemetry.getLast? = some (k, e)) (hlt : sns.time < k) :
    appendSensorTelemetry s sns = s ∧
    (NoComplete s.rawTelemetry →
      handleEvent s (TelemetryEvent.sensor sns) = (s, none)) := by
  have hdisc := appendSensorTelemetry_discard s sns k e hlast hlt
  refine ⟨hdisc, ?_⟩
  intro hnc
  have hfm : findMatched s.rawTelemetry = none := (findMatched_eq_none_iff _).mpr hnc
  simp only [handleEvent, appendEvent, hdisc, firstMatchedTelemetry, hfm]

/-- Witness for C6 amended: a buffer whose newest entry sits at timestamp
2 discards a sensor fragment stamped 1 without any state change. -/
theorem c6_amended_witness :
    appendSensorTelemetry ⟨[(2, ⟨none, some ⟨2⟩⟩)], none, 0⟩ ⟨1, 50⟩
      = ⟨[(2, ⟨none, some ⟨2⟩⟩)], none, 0⟩ :=
  (c6_amended ⟨[(2, ⟨none, some ⟨2⟩⟩)], none, 0⟩ ⟨1, 50⟩ 2 ⟨none, some ⟨2⟩⟩
    (by decide) (by decide)).1
